import Mathlib

/-!
Verification of the authentication/session subsystem of the expense-tracker
backend, as a shallow embedding in Lean 4.

Data model, from src/backend/app/models/user.py and
src/backend/app/models/refresh_token.py.  SQLAlchemy String/Text columns
become String, Integer becomes Nat, DateTime becomes Nat (ticks), nullable
columns become Option.  The server-managed audit columns created_at and
updated_at, which are never assigned by the embedded operations, are
omitted.  The service code is from src/backend/app/services/auth_service.py.
The password hasher (app.core.security) and the refresh-token ledger
operations are absent from the provided sources and are modelled from the
spec, with doc comments saying so.
-/

namespace ExpenseTracker

/-- Modelled from the spec: app.core.security is missing from the sources.
A stored digest either embeds a salt together with the salted hash value
of a plaintext ("deterministic-format, non-reversible digest embedding a
random salt"), or is a malformed string that does not follow that format. -/
inductive Digest where
  | wellFormed (salt : Nat) (value : Nat)
  | malformed (raw : String)
  deriving DecidableEq, Repr

/-- Modelled from the spec: the underlying salted hash value recomputed by
verification.  A concrete one-way accumulator standing in for the real
digest computation, which is not in the sources. -/
def digestValue (salt : Nat) (plaintext : String) : Nat :=
  plaintext.toList.foldl (fun a c => a * 65599 + c.toNat + 1) salt

/-- Modelled from the spec: hash(plaintext) embeds a random salt; the salt
drawn by a call is made explicit as an argument, so two calls receive
different salts. -/
def get_password_hash (plaintext : String) (salt : Nat) : Digest :=
  .wellFormed salt (digestValue salt plaintext)

/-- Modelled from the spec: the raw comparison underlying verification; on a
malformed digest it signals an error instead of returning a Boolean. -/
def verifyCore (plaintext : String) (d : Digest) : Except String Bool :=
  match d with
  | .wellFormed salt value => .ok (digestValue salt plaintext == value)
  | .malformed raw => .error ("malformed digest: " ++ raw)

/-- Modelled from the spec: verify(plaintext, digest) recomputes and
compares; it "returns false (never raises) on malformed digest input",
so the error of the raw comparison degrades to false. -/
def verify_password (plaintext : String) (d : Digest) : Bool :=
  match verifyCore plaintext d with
  | .ok b => b
  | .error _ => false

/-- User row, from src/backend/app/models/user.py (password holds the digest). -/
structure User where
  user_id : Nat
  username : String
  email : String
  password : Digest
  first_name : Option String
  last_name : Option String
  refresh_token : Option String
  token_expiry : Option Nat
  token_version : Nat
  is_active : Bool
  last_login : Option Nat
  deriving DecidableEq, Repr

/-- RefreshToken row, from src/backend/app/models/refresh_token.py.
recorded_version is the owner token_version recorded at issuance;
modelled from the spec ("the version recorded at issuance"), as the
issuing code is missing from the sources and the declared table has no
column for it. -/
structure RefreshToken where
  token_id : Nat
  user_id : Nat
  token : String
  issued_at : Nat
  expires_at : Nat
  revoked : Bool
  revoked_reason : Option String
  ip_address : Option String
  user_agent : Option String
  recorded_version : Nat
  deriving DecidableEq, Repr

/-- The relational store visible to the auth core: the users table and the
refresh_tokens table, each a list of rows in insertion order (a query
first() returns the first matching row). -/
structure DB where
  users : List User
  tokens : List RefreshToken
  deriving DecidableEq, Repr

/-- Replace the first element satisfying p by its image under f, as the ORM
mutation of the single row returned by first(). -/
def updateFirst {α : Type} (p : α → Bool) (f : α → α) : List α → List α
  | [] => []
  | x :: xs => if p x then f x :: xs else x :: updateFirst p f xs

/-- AuthService.create_user, from src/backend/app/services/auth_service.py
lines 10-33.  Queries for an existing row with the same username or email;
raises on a hit (returning the store unchanged); otherwise hashes the
password and inserts a new row.  is_active true and token_version 0 are the
declared column defaults applied at insert; the fresh primary key and the
salt drawn by the hasher are explicit arguments. -/
def create_user (db : DB) (username email : String)
    (first_name last_name : Option String) (password : String)
    (salt newId : Nat) : Except String User × DB :=
  match db.users.find? (fun u => u.username == username || u.email == email) with
  | some _ => (.error "Username or email already registered", db)
  | none =>
    let u : User :=
      { user_id := newId, username := username, email := email
        password := get_password_hash password salt
        first_name := first_name, last_name := last_name
        refresh_token := none, token_expiry := none
        token_version := 0, is_active := true, last_login := none }
    (.ok u, { db with users := db.users ++ [u] })

/-- AuthService.authenticate_user, from src/backend/app/services/auth_service.py
lines 35-51.  Looks up the first row by username; returns None when absent,
when the password does not verify, or when the row is inactive; otherwise
sets last_login to the current time, commits, and returns the row. -/
def authenticate_user (db : DB) (username password : String) (now : Nat) :
    Option User × DB :=
  match db.users.find? (fun u => u.username == username) with
  | none => (none, db)
  | some user =>
    if !verify_password password user.password then (none, db)
    else if !user.is_active then (none, db)
    else
      let user' := { user with last_login := some now }
      let users' := updateFirst (fun u => u.username == username)
        (fun u => { u with last_login := some now }) db.users
      (some user', { db with users := users' })

/-- AuthService.get_user_by_username, lines 53-56: pure read, first row by
username or None. -/
def get_user_by_username (db : DB) (username : String) : Option User :=
  db.users.find? (fun u => u.username == username)

/-- AuthService.get_user_by_id, lines 58-61: pure read, first row by id or
None. -/
def get_user_by_id (db : DB) (user_id : Nat) : Option User :=
  db.users.find? (fun u => u.user_id == user_id)

/-- Outcomes of validating a refresh token, from the error taxonomy of the spec:
the valid case returns the owning user. -/
inductive TokenResult where
  | ok (u : User)
  | notFound
  | revokedTok
  | expired
  | staleVersion
  deriving DecidableEq, Repr

/-- Modelled from the spec: issue(user, client_ip, user_agent, ttl) of the
Refresh Token Ledger is missing from the sources.  Stores issuance time,
expires_at = now + ttl, and tags the row with the current user field
token_version; the cryptographically random opaque token string and the
fresh primary key are explicit arguments. -/
def issue (db : DB) (u : User) (tokenStr : String) (now ttl : Nat)
    (ip ua : Option String) (newId : Nat) : RefreshToken × DB :=
  let t : RefreshToken :=
    { token_id := newId, user_id := u.user_id, token := tokenStr
      issued_at := now, expires_at := now + ttl
      revoked := false, revoked_reason := none
      ip_address := ip, user_agent := ua
      recorded_version := u.token_version }
  (t, { db with tokens := db.tokens ++ [t] })

/-- Modelled from the spec: validate(token_string) of the Refresh Token
Ledger is missing from the sources.  NotFound when no row matches (or, under
broken referential integrity, no owning user exists), Revoked when flagged,
Expired when past expires_at, StaleVersion when the recorded version differs
from the current token_version of the owner, otherwise the owning user. -/
def validate (db : DB) (tokenStr : String) (now : Nat) : TokenResult :=
  match db.tokens.find? (fun t => t.token == tokenStr) with
  | none => .notFound
  | some t =>
    if t.revoked then .revokedTok
    else if t.expires_at ≤ now then .expired
    else
      match db.users.find? (fun u => u.user_id == t.user_id) with
      | none => .notFound
      | some u =>
        if t.recorded_version == u.token_version then .ok u else .staleVersion

/-- Modelled from the spec: revoke(token_string, reason) of the Refresh
Token Ledger is missing from the sources.  Sets revoked and the reason on
matching rows that are not yet revoked; an already-revoked row is left
untouched (idempotent, not an error). -/
def revoke (db : DB) (tokenStr : String) (reason : Option String) : DB :=
  { db with tokens := db.tokens.map (fun t =>
      if t.token == tokenStr && !t.revoked then
        { t with revoked := true, revoked_reason := reason }
      else t) }

/-- Modelled from the spec: revoke_all_for_user(user) of the Refresh Token
Ledger is missing from the sources.  Increments the token_version of the user
without touching any token row. -/
def revoke_all_for_user (db : DB) (userId : Nat) : DB :=
  { db with users := db.users.map (fun u =>
      if u.user_id == userId then { u with token_version := u.token_version + 1 }
      else u) }

/-! Helper lemmas about the list-level store operations. -/

theorem verify_hash_eq_true (p : String) (s : Nat) :
    verify_password p (get_password_hash p s) = true := by
  simp [verify_password, verifyCore, get_password_hash]

theorem find?_updateFirst {α : Type} (p : α → Bool) (f : α → α)
    (hf : ∀ x, p (f x) = p x) (l : List α) :
    (updateFirst p f l).find? p = (l.find? p).map f := by
  induction l with
  | nil => rfl
  | cons x xs ih =>
    by_cases hx : p x = true
    · simp [updateFirst, hx, List.find?_cons, hf]
    · simp only [Bool.not_eq_true] at hx
      simp [updateFirst, hx, List.find?_cons, ih]

theorem forall2_updateFirst {α : Type} (R : α → α → Prop) (p : α → Bool)
    (f : α → α) (hrefl : ∀ x, R x x) (hstep : ∀ x, R x (f x)) (l : List α) :
    List.Forall₂ R l (updateFirst p f l) := by
  induction l with
  | nil => exact List.Forall₂.nil
  | cons x xs ih =>
    by_cases hx : p x = true
    · simp only [updateFirst, hx, if_true]
      exact List.Forall₂.cons (hstep x) (List.forall₂_same.mpr (fun y _ => hrefl y))
    · simp only [Bool.not_eq_true] at hx
      simp only [updateFirst, hx, Bool.false_eq_true, if_false]
      exact List.Forall₂.cons (hrefl x) ih

theorem find?_append_none {α : Type} (p : α → Bool) (l l2 : List α)
    (h : l.find? p = none) : (l ++ l2).find? p = l2.find? p := by
  induction l with
  | nil => rfl
  | cons x xs ih =>
    rw [List.find?_cons] at h
    by_cases hx : p x = true
    · simp [hx] at h
    · simp only [Bool.not_eq_true] at hx
      simp only [hx, Bool.false_eq_true, if_false] at h
      simp [List.find?_cons, hx, ih h]

theorem find?_none_mono {α : Type} (p q : α → Bool) (l : List α)
    (h : l.find? p = none) (himp : ∀ x, q x = true → p x = true) :
    l.find? q = none := by
  rw [List.find?_eq_none] at h ⊢
  exact fun x hx hq => h x hx (himp x hq)

theorem find?_map_pres {α : Type} (p : α → Bool) (f : α → α)
    (hf : ∀ x, p (f x) = p x) (l : List α) :
    (l.map f).find? p = (l.find? p).map f := by
  induction l with
  | nil => rfl
  | cons x xs ih =>
    by_cases hx : p x = true
    · simp [List.find?_cons, hf, hx]
    · simp only [Bool.not_eq_true] at hx
      simp [List.find?_cons, hf, hx, ih]

/-! Concrete rows and stores used by witnesses and counterexamples. -/

/-- An active user whose stored password is the hash of "pw" under salt 7. -/
def uAlice : User :=
  { user_id := 1, username := "alice", email := "a@x.com"
    password := get_password_hash "pw" 7
    first_name := none, last_name := none
    refresh_token := none, token_expiry := none
    token_version := 0, is_active := true, last_login := none }

/-- A store holding only uAlice. -/
def dbAlice : DB := { users := [uAlice], tokens := [] }

/-- A live token of uAlice recorded at version 0, expiring at time 100. -/
def tokAlice : RefreshToken :=
  { token_id := 1, user_id := 1, token := "T1", issued_at := 0
    expires_at := 100, revoked := false, revoked_reason := none
    ip_address := none, user_agent := none, recorded_version := 0 }

/-- A store holding uAlice and her live token. -/
def dbTok : DB := { users := [uAlice], tokens := [tokAlice] }

/-- A store whose only token is already revoked. -/
def dbRevoked : DB :=
  { users := [uAlice],
    tokens := [{ tokAlice with revoked := true, revoked_reason := some "logout" }] }

/-- An inactive user whose stored password is the hash of "pw" under salt 3. -/
def uBob : User :=
  { user_id := 2, username := "bob", email := "b@x.com"
    password := get_password_hash "pw" 3
    first_name := none, last_name := none
    refresh_token := none, token_expiry := none
    token_version := 0, is_active := false, last_login := none }

/-- A store holding the active uAlice and the inactive uBob. -/
def dbTwo : DB := { users := [uAlice, uBob], tokens := [] }

/-- The user produced by registering "carol" into the empty store. -/
def uCarol : User :=
  { user_id := 1, username := "carol", email := "c@x.com"
    password := get_password_hash "pw" 7
    first_name := none, last_name := none
    refresh_token := none, token_expiry := none
    token_version := 0, is_active := true, last_login := none }

/-- The store obtained by registering "carol" into the empty store. -/
def dbCarol : DB := { users := [] ++ [uCarol], tokens := [] }

/-- C6: for every plaintext, verifying against its own hash succeeds, and
distinct salts (one per call) yield distinct digests for the same
plaintext. -/
theorem hash_verify_roundtrip (p : String) (s1 s2 : Nat) (h : s1 ≠ s2) :
    verify_password p (get_password_hash p s1) = true ∧
    get_password_hash p s1 ≠ get_password_hash p s2 := by
  refine ⟨verify_hash_eq_true p s1, fun heq => h ?_⟩
  have h2 : s1 = s2 ∧ digestValue s1 p = digestValue s2 p := by
    simpa [get_password_hash, Digest.wellFormed.injEq] using heq
  exact h2.1

/-- C6 witness: roundtrip and distinctness at plaintext "pw", salts 0 and 1. -/
theorem hash_verify_roundtrip_witness :
    verify_password "pw" (get_password_hash "pw" 0) = true ∧
    get_password_hash "pw" 0 ≠ get_password_hash "pw" 1 :=
  hash_verify_roundtrip "pw" 0 1 (by decide)

/-- C7: verification is total — it always returns some Boolean, any error of
the raw comparison degrades to false, and on a malformed digest it returns
false rather than signalling. -/
theorem verify_total (p : String) (d : Digest) :
    (∃ b : Bool, verify_password p d = b) ∧
    (∀ e, verifyCore p d = Except.error e → verify_password p d = false) ∧
    (∀ raw, d = Digest.malformed raw → verify_password p d = false) := by
  refine ⟨⟨verify_password p d, rfl⟩, ?_, ?_⟩
  · intro e he
    simp [verify_password, he]
  · intro raw hraw
    simp [verify_password, verifyCore, hraw]

/-- C7 witness: a malformed digest makes verification return false. -/
theorem verify_total_witness :
    verify_password "pw" (Digest.malformed "junk") = false :=
  (verify_total "pw" (Digest.malformed "junk")).2.2 "junk" rfl

/-- C8: revoking is idempotent — revoking again (with any reason) after a
revoke changes nothing, and revoking a token string whose rows are all
already revoked leaves the store untouched. -/
theorem revoke_idempotent (db : DB) (ts : String) (r r2 : Option String) :
    revoke (revoke db ts r) ts r2 = revoke db ts r ∧
    ((∀ t ∈ db.tokens, t.token = ts → t.revoked = true) → revoke db ts r2 = db) := by
  constructor
  · simp only [revoke, List.map_map, DB.mk.injEq, true_and]
    apply List.map_congr_left
    intro t _
    by_cases h1 : (t.token == ts) = true
    · by_cases h2 : t.revoked = true
      · simp [Function.comp, h1, h2]
      · simp only [Bool.not_eq_true] at h2
        simp [Function.comp, h1, h2]
    · have hb : (t.token == ts) = false := by
        simpa using h1
      simp [Function.comp, hb]
  · intro hall
    have hp : ∀ t ∈ db.tokens,
        (if t.token == ts && !t.revoked then
          { t with revoked := true, revoked_reason := r2 }
        else t) = id t := by
      intro t ht
      by_cases h1 : (t.token == ts) = true
      · have hr : t.revoked = true := hall t ht (by simpa using h1)
        simp [h1, hr]
      · have hb : (t.token == ts) = false := by
          simpa using h1
        simp [hb]
    have hmap := (List.map_congr_left hp).trans (List.map_id db.tokens)
    simp only [revoke, hmap]

/-- C8 witness: re-revoking a store whose only matching token is already
revoked is the identity. -/
theorem revoke_idempotent_witness :
    revoke dbRevoked "T1" (some "again") = dbRevoked :=
  (revoke_idempotent dbRevoked "T1" none (some "again")).2 (by
    intro t ht _
    simp only [dbRevoked, List.mem_singleton] at ht
    simp [ht])

/-- C2: create_user fails with the duplicate error iff some stored user has
the same username or the same email (exact match); on any such failure the
store is unchanged; and after a successful registration, registering the
same username again (any email), or the same email under any other
username, fails. -/
theorem create_user_duplicate_iff (db : DB) (username email : String)
    (fn ln : Option String) (pw : String) (salt newId : Nat) :
    ((create_user db username email fn ln pw salt newId).1 =
        Except.error "Username or email already registered" ↔
      ∃ u ∈ db.users, u.username = username ∨ u.email = email) ∧
    ((∃ u ∈ db.users, u.username = username ∨ u.email = email) →
      (create_user db username email fn ln pw salt newId).2 = db) ∧
    (∀ u db1, create_user db username email fn ln pw salt newId =
        (Except.ok u, db1) →
      (∀ email2 fn2 ln2 pw2 s2 id2,
        (create_user db1 username email2 fn2 ln2 pw2 s2 id2).1 =
          Except.error "Username or email already registered") ∧
      (∀ username2 fn2 ln2 pw2 s2 id2,
        (create_user db1 username2 email fn2 ln2 pw2 s2 id2).1 =
          Except.error "Username or email already registered")) := by
  cases hf : db.users.find? (fun u => u.username == username || u.email == email) with
  | some w =>
    have hw := List.find?_some hf
    have hwm := List.mem_of_find?_eq_some hf
    simp only [Bool.or_eq_true, beq_iff_eq] at hw
    refine ⟨⟨fun _ => ⟨w, hwm, hw⟩, fun _ => ?_⟩, fun _ => ?_, fun u db1 hok => ?_⟩
    · simp [create_user, hf]
    · simp [create_user, hf]
    · simp [create_user, hf] at hok
  | none =>
    have hnone := List.find?_eq_none.mp hf
    have hno : ¬∃ u ∈ db.users, u.username = username ∨ u.email = email := by
      rintro ⟨u, hu, hor⟩
      exact hnone u hu (by simp [hor])
    refine ⟨⟨fun herr => absurd ?_ hno, fun hdup => absurd hdup hno⟩,
      fun hdup => absurd hdup hno, fun u db1 hok => ?_⟩
    · simp [create_user, hf] at herr
    · simp only [create_user, hf] at hok
      rw [Prod.mk.injEq, Except.ok.injEq] at hok
      obtain ⟨hu, hdb1⟩ := hok
      have hmem : u ∈ db1.users := by
        rw [← hdb1]
        simp [← hu]
      have husername : u.username = username := by rw [← hu]
      have hemail : u.email = email := by rw [← hu]
      constructor
      · intro email2 fn2 ln2 pw2 s2 id2
        cases hf2 : db1.users.find?
            (fun v => v.username == username || v.email == email2) with
        | some w2 => simp [create_user, hf2]
        | none =>
          exact absurd (List.find?_eq_none.mp hf2 u hmem)
            (by simp [husername])
      · intro username2 fn2 ln2 pw2 s2 id2
        cases hf2 : db1.users.find?
            (fun v => v.username == username2 || v.email == email) with
        | some w2 => simp [create_user, hf2]
        | none =>
          exact absurd (List.find?_eq_none.mp hf2 u hmem)
            (by simp [hemail])

/-- C2 witness: registering the username "alice" a second time (with a fresh
email) fails with the duplicate error. -/
theorem create_user_duplicate_iff_witness :
    (create_user dbAlice "alice" "b@y.com" none none "pw2" 3 9).1 =
      Except.error "Username or email already registered" :=
  (create_user_duplicate_iff dbAlice "alice" "b@y.com" none none "pw2" 3 9).1.mpr
    ⟨uAlice, by simp [dbAlice], Or.inl rfl⟩

/-- C3: when neither the username nor the email is already present,
create_user persists exactly one new row — the users table grows by exactly
that row — whose stored password is the hash of the plaintext, which is
active with token_version 0, and returns it. -/
theorem create_user_success (db : DB) (username email : String)
    (fn ln : Option String) (pw : String) (salt newId : Nat)
    (h : ∀ u ∈ db.users, u.username ≠ username ∧ u.email ≠ email) :
    ∃ u, create_user db username email fn ln pw salt newId =
        (Except.ok u, { db with users := db.users ++ [u] }) ∧
      u.password = get_password_hash pw salt ∧
      u.is_active = true ∧ u.token_version = 0 ∧
      u.username = username ∧ u.email = email ∧ u.user_id = newId := by
  have hf : db.users.find?
      (fun u => u.username == username || u.email == email) = none := by
    rw [List.find?_eq_none]
    intro x hx
    simp [(h x hx).1, (h x hx).2]
  refine ⟨{ user_id := newId, username := username, email := email
            password := get_password_hash pw salt
            first_name := fn, last_name := ln
            refresh_token := none, token_expiry := none
            token_version := 0, is_active := true, last_login := none },
    ?_, rfl, rfl, rfl, rfl, rfl, rfl⟩
  simp [create_user, hf]

/-- C3 witness: registering into the empty store persists the hashed row. -/
theorem create_user_success_witness :
    ∃ u, create_user ⟨[], []⟩ "alice" "a@x.com" none none "pw" 7 1 =
        (Except.ok u, { DB.mk [] [] with users := [] ++ [u] }) ∧
      u.password = get_password_hash "pw" 7 ∧
      u.is_active = true ∧ u.token_version = 0 ∧
      u.username = "alice" ∧ u.email = "a@x.com" ∧ u.user_id = 1 :=
  create_user_success ⟨[], []⟩ "alice" "a@x.com" none none "pw" 7 1
    (by intro u hu; simp at hu)

/-- C1 counterexample: the three failure situations — unknown username
("carol"), wrong password for the active "alice", and the correct password
for the inactive "bob" — all return the same value None, so the caller
cannot distinguish any of them. -/
theorem authenticate_failures_indistinguishable :
    (authenticate_user dbTwo "carol" "pw" 10).1 = none ∧
    (authenticate_user dbTwo "alice" "wrong" 10).1 = none ∧
    (authenticate_user dbTwo "bob" "pw" 10).1 = none := by
  refine ⟨rfl, ?_, rfl⟩
  decide

/-- C1 amended: authenticate_user returns the single failure value None when
the username is absent, when the password does not verify against the
stored hash (checked next), and when the account is inactive (checked
last); on success it returns the user with last_login set to the current
time.  The three failure outcomes are not distinguishable by the caller. -/
theorem authenticate_user_cases (db : DB) (username password : String)
    (now : Nat) :
    (db.users.find? (fun u => u.username == username) = none →
      authenticate_user db username password now = (none, db)) ∧
    (∀ u, db.users.find? (fun u => u.username == username) = some u →
      verify_password password u.password = false →
      authenticate_user db username password now = (none, db)) ∧
    (∀ u, db.users.find? (fun u => u.username == username) = some u →
      verify_password password u.password = true → u.is_active = false →
      authenticate_user db username password now = (none, db)) ∧
    (∀ u, db.users.find? (fun u => u.username == username) = some u →
      verify_password password u.password = true → u.is_active = true →
      (authenticate_user db username password now).1 =
        some { u with last_login := some now }) := by
  refine ⟨fun hf => ?_, fun u hf hv => ?_, fun u hf hv ha => ?_,
    fun u hf hv ha => ?_⟩
  · simp [authenticate_user, hf]
  · simp [authenticate_user, hf, hv]
  · simp [authenticate_user, hf, hv, ha]
  · simp [authenticate_user, hf, hv, ha]

/-- C1 amended witness: an unknown username on the empty store fails with
None and leaves the store unchanged. -/
theorem authenticate_user_cases_witness :
    authenticate_user ⟨[], []⟩ "x" "y" 0 = (none, ⟨[], []⟩) :=
  (authenticate_user_cases ⟨[], []⟩ "x" "y" 0).1 rfl

/-- C10: authenticate_user mutates at most the last_login of the matched user and
only on success: every failing call returns the store unchanged, the token
table is never touched, each user row is either untouched or differs only
in last_login, and an inactive account fails (store unchanged) whatever the
password. -/
theorem authenticate_user_frame (db : DB) (username password : String)
    (now : Nat) :
    ((authenticate_user db username password now).1 = none →
      (authenticate_user db username password now).2 = db) ∧
    (authenticate_user db username password now).2.tokens = db.tokens ∧
    List.Forall₂
      (fun old new => new = old ∨ new = { old with last_login := some now })
      db.users (authenticate_user db username password now).2.users ∧
    (∀ u, db.users.find? (fun v => v.username == username) = some u →
      u.is_active = false →
      authenticate_user db username password now = (none, db)) := by
  have hrefl : List.Forall₂
      (fun old new => new = old ∨ new = { old with last_login := some now })
      db.users db.users :=
    List.forall₂_same.mpr (fun x _ => Or.inl rfl)
  cases hf : db.users.find? (fun u => u.username == username) with
  | none =>
    refine ⟨fun _ => by simp [authenticate_user, hf],
      by simp [authenticate_user, hf],
      by simp [authenticate_user, hf, hrefl],
      fun u hu => by simp [hf] at hu⟩
  | some u =>
    cases hv : verify_password password u.password with
    | false =>
      refine ⟨fun _ => by simp [authenticate_user, hf, hv],
        by simp [authenticate_user, hf, hv],
        by simp [authenticate_user, hf, hv, hrefl],
        fun u2 hu2 hi2 => by simp [authenticate_user, hf, hv]⟩
    | true =>
      cases ha : u.is_active with
      | false =>
        refine ⟨fun _ => by simp [authenticate_user, hf, hv, ha],
          by simp [authenticate_user, hf, hv, ha],
          by simp [authenticate_user, hf, hv, ha, hrefl],
          fun u2 hu2 hi2 => by simp [authenticate_user, hf, hv, ha]⟩
      | true =>
        refine ⟨fun hnone => ?_, by simp [authenticate_user, hf, hv, ha],
          ?_, fun u2 hu2 hi2 => ?_⟩
        · simp [authenticate_user, hf, hv, ha] at hnone
        · simp only [authenticate_user, hf, hv, ha]
          simp only [Bool.not_true, Bool.false_eq_true, if_false, if_true]
          exact forall2_updateFirst
            (fun old new => new = old ∨ new = { old with last_login := some now })
            (fun v => v.username == username)
            (fun v => { v with last_login := some now })
            (fun x => Or.inl rfl) (fun x => Or.inr rfl) db.users
        · have huu : u = u2 := by injection hu2
          rw [← huu, ha] at hi2
          exact Bool.noConfusion hi2

/-- C10 witness: the inactive user "bob", even with his correct password,
fails and the store is returned unchanged. -/
theorem authenticate_user_frame_witness :
    authenticate_user dbTwo "bob" "pw" 10 = (none, dbTwo) :=
  (authenticate_user_frame dbTwo "bob" "pw" 10).2.2.2 uBob (by decide) rfl

/-- The success path of authenticate_user in one equation. -/
theorem authenticate_user_success_eq (db : DB) (username pw : String)
    (now : Nat) (u : User)
    (hf : db.users.find? (fun v => v.username == username) = some u)
    (hv : verify_password pw u.password = true) (ha : u.is_active = true) :
    authenticate_user db username pw now =
      (some { u with last_login := some now },
       { db with
           users := updateFirst (fun v => v.username == username)
             (fun v => { v with last_login := some now }) db.users }) := by
  simp [authenticate_user, hf, hv, ha]

/-- C9: a pair registered once (create_user succeeded) authenticates
successfully, and the success is repeatable: a second authenticate after
the first also succeeds, since the first changed only last_login, which
authentication does not read. -/
theorem register_then_authenticate (db : DB) (username email : String)
    (fn ln : Option String) (pw : String) (salt newId : Nat)
    (u : User) (db1 : DB)
    (h : create_user db username email fn ln pw salt newId =
      (Except.ok u, db1)) (now now2 : Nat) :
    (authenticate_user db1 username pw now).1 =
      some { u with last_login := some now } ∧
    (authenticate_user (authenticate_user db1 username pw now).2
        username pw now2).1 =
      some { u with last_login := some now2 } := by
  cases hf : db.users.find?
      (fun v => v.username == username || v.email == email) with
  | some w => simp [create_user, hf] at h
  | none =>
    simp only [create_user, hf] at h
    rw [Prod.mk.injEq, Except.ok.injEq] at h
    obtain ⟨hu, hdb1⟩ := h
    have hus : u.username = username := by rw [← hu]
    have hpw : u.password = get_password_hash pw salt := by rw [← hu]
    have hact : u.is_active = true := by rw [← hu]
    rw [hu] at hdb1
    subst hdb1
    have hfu : db.users.find? (fun v => v.username == username) = none :=
      find?_none_mono _ _ db.users hf (fun x hx => by simp [hx])
    have hfind1 : (db.users ++ [u]).find?
        (fun v => v.username == username) = some u := by
      rw [find?_append_none _ _ _ hfu]
      simp [List.find?, hus]
    have hv : verify_password pw u.password = true := by
      rw [hpw]; exact verify_hash_eq_true pw salt
    have heq1 := authenticate_user_success_eq
      ({ db with users := db.users ++ [u] }) username pw now u hfind1 hv hact
    have hfind2 : (updateFirst (fun v => v.username == username)
        (fun v => { v with last_login := some now }) (db.users ++ [u])).find?
        (fun v => v.username == username) =
        some { u with last_login := some now } := by
      rw [find?_updateFirst (fun v => v.username == username)
        (fun v => { v with last_login := some now }) (fun x => rfl)
        (db.users ++ [u]), hfind1]
      rfl
    have heq2 := authenticate_user_success_eq
      (⟨updateFirst (fun v => v.username == username)
        (fun v => { v with last_login := some now }) (db.users ++ [u]),
        db.tokens⟩) username pw now2
      ({ u with last_login := some now }) hfind2 hv hact
    constructor
    · rw [heq1]
    · rw [heq1]
      show (authenticate_user ⟨updateFirst (fun v => v.username == username)
          (fun v => { v with last_login := some now }) (db.users ++ [u]),
          db.tokens⟩ username pw now2).1 =
        some { u with last_login := some now2 }
      rw [heq2]

/-- C9 witness: after registering "carol" into the empty store, two
successive logins with the same pair both succeed. -/
theorem register_then_authenticate_witness :
    (authenticate_user dbCarol "carol" "pw" 5).1 =
      some { uCarol with last_login := some 5 } ∧
    (authenticate_user (authenticate_user dbCarol "carol" "pw" 5).2
        "carol" "pw" 6).1 =
      some { uCarol with last_login := some 6 } :=
  register_then_authenticate ⟨[], []⟩ "carol" "c@x.com" none none "pw" 7 1
    uCarol dbCarol rfl 5 6

/-- C4: validate returns NotFound when no row matches the token string;
Revoked when the matching row is flagged; Expired when past expires_at (and
not revoked); StaleVersion when live but recorded at a version different
from the current token_version of the owner; and for a matching row with an
existing owner it returns that owner exactly when the token is not revoked,
not expired, and version-current. -/
theorem validate_cases (db : DB) (ts : String) (now : Nat) :
    (db.tokens.find? (fun t => t.token == ts) = none →
      validate db ts now = TokenResult.notFound) ∧
    (∀ t, db.tokens.find? (fun t => t.token == ts) = some t →
      t.revoked = true → validate db ts now = TokenResult.revokedTok) ∧
    (∀ t, db.tokens.find? (fun t => t.token == ts) = some t →
      t.revoked = false → t.expires_at ≤ now →
      validate db ts now = TokenResult.expired) ∧
    (∀ t u, db.tokens.find? (fun t => t.token == ts) = some t →
      t.revoked = false → now < t.expires_at →
      db.users.find? (fun v => v.user_id == t.user_id) = some u →
      t.recorded_version ≠ u.token_version →
      validate db ts now = TokenResult.staleVersion) ∧
    (∀ t u, db.tokens.find? (fun t => t.token == ts) = some t →
      db.users.find? (fun v => v.user_id == t.user_id) = some u →
      (validate db ts now = TokenResult.ok u ↔
        t.revoked = false ∧ now < t.expires_at ∧
        t.recorded_version = u.token_version)) := by
  refine ⟨fun hf => by simp [validate, hf],
    fun t hf hr => by simp [validate, hf, hr],
    fun t hf hr he => by simp [validate, hf, hr, he],
    fun t u hf hr he hfu hne => by
      simp [validate, hf, hr, not_le.mpr he, hfu, hne],
    fun t u hf hfu => ?_⟩
  constructor
  · intro hok
    by_cases hr : t.revoked = true
    · simp [validate, hf, hr] at hok
    · simp only [Bool.not_eq_true] at hr
      by_cases he : t.expires_at ≤ now
      · simp [validate, hf, hr, he] at hok
      · by_cases hv : t.recorded_version = u.token_version
        · exact ⟨hr, not_le.mp he, hv⟩
        · simp [validate, hf, hr, he, hfu, hv] at hok
  · rintro ⟨hr, he, hv⟩
    simp [validate, hf, hr, not_le.mpr he, hfu, hv]

/-- C4 witness: an unknown token string on the empty store is NotFound. -/
theorem validate_cases_witness :
    validate ⟨[], []⟩ "T" 0 = TokenResult.notFound :=
  (validate_cases ⟨[], []⟩ "T" 0).1 rfl

/-- Bumping the token_version of the user with a given id moves through the
first-match lookup by that id. -/
theorem find?_bump (uid : Nat) (l : List User) (u : User)
    (hfu : l.find? (fun v => v.user_id == uid) = some u) :
    (l.map (fun v => if v.user_id == uid then
      { v with token_version := v.token_version + 1 } else v)).find?
      (fun v => v.user_id == uid) =
      some { u with token_version := u.token_version + 1 } := by
  have hpres : ∀ x : User,
      ((if x.user_id == uid then
        { x with token_version := x.token_version + 1 } else x).user_id == uid)
      = (x.user_id == uid) := by
    intro x
    by_cases hx : (x.user_id == uid) = true
    · simp [hx]
    · have hx2 : (x.user_id == uid) = false := by simpa using hx
      simp [hx2]
  rw [find?_map_pres (fun v => v.user_id == uid)
    (fun v => if v.user_id == uid then
      { v with token_version := v.token_version + 1 } else v) hpres l, hfu]
  have hu := List.find?_some hfu
  have hu2 : u.user_id = uid := by simpa using hu
  simp [hu2]

/-- A live lookup: once the matching row is found, not revoked and not
expired, validation is decided by the owner lookup and the version check. -/
theorem validate_live_eq (db : DB) (ts : String) (now : Nat)
    (t : RefreshToken)
    (hft : db.tokens.find? (fun x => x.token == ts) = some t)
    (hr : t.revoked = false) (he : ¬(t.expires_at ≤ now)) :
    validate db ts now =
      match db.users.find? (fun v => v.user_id == t.user_id) with
      | none => TokenResult.notFound
      | some u => if t.recorded_version == u.token_version
          then TokenResult.ok u else TokenResult.staleVersion := by
  simp [validate, hft, hr, he]

/-- The StaleVersion outcome of validation, in isolation. -/
theorem validate_stale (db : DB) (ts : String) (now : Nat)
    (t : RefreshToken) (u : User)
    (hft : db.tokens.find? (fun x => x.token == ts) = some t)
    (hr : t.revoked = false) (he : now < t.expires_at)
    (hfu : db.users.find? (fun v => v.user_id == t.user_id) = some u)
    (hne : t.recorded_version ≠ u.token_version) :
    validate db ts now = TokenResult.staleVersion := by
  simp [validate, hft, hr, not_le.mpr he, hfu, hne]

/-- Issuing a fresh token string to a user present in the store yields a
token that validates to that user at issuance time. -/
theorem validate_issue_fresh (db : DB) (u : User) (ts : String)
    (now ttl : Nat) (ip ua : Option String) (newId : Nat)
    (hnone : db.tokens.find? (fun x => x.token == ts) = none)
    (hfu : db.users.find? (fun v => v.user_id == u.user_id) = some u)
    (httl : 0 < ttl) :
    validate (issue db u ts now ttl ip ua newId).2 ts now =
      TokenResult.ok u := by
  have hexp : ¬(now + ttl ≤ now) := by omega
  have hft : (db.tokens ++ [(issue db u ts now ttl ip ua newId).1]).find?
      (fun x => x.token == ts) =
      some (issue db u ts now ttl ip ua newId).1 := by
    rw [find?_append_none _ _ _ hnone]
    simp [List.find?, issue]
  have hmain := validate_live_eq (issue db u ts now ttl ip ua newId).2 ts now
    (issue db u ts now ttl ip ua newId).1 hft rfl hexp
  rw [hmain]
  show (match db.users.find? (fun v => v.user_id == u.user_id) with
    | none => TokenResult.notFound
    | some w => if u.token_version == w.token_version
        then TokenResult.ok w else TokenResult.staleVersion) =
    TokenResult.ok u
  rw [hfu]
  simp

/-- C5: revoke_all_for_user increments the token_version of the user by one;
a live (non-revoked, non-expired) token recorded at the old version then
fails validation with StaleVersion; a token issued afterwards (fresh
string, positive ttl) validates to the bumped user; and validation of a
token owned by any other user is unchanged. -/
theorem revoke_all_semantics :
    (∀ db uid u, db.users.find? (fun v => v.user_id == uid) = some u →
      (revoke_all_for_user db uid).users.find? (fun v => v.user_id == uid) =
        some { u with token_version := u.token_version + 1 }) ∧
    (∀ db uid ts now t u,
      db.tokens.find? (fun x => x.token == ts) = some t →
      t.user_id = uid → t.revoked = false → now < t.expires_at →
      db.users.find? (fun v => v.user_id == uid) = some u →
      t.recorded_version = u.token_version →
      validate (revoke_all_for_user db uid) ts now =
        TokenResult.staleVersion) ∧
    (∀ db uid ts now ttl ip ua newId u2,
      (revoke_all_for_user db uid).users.find?
        (fun v => v.user_id == uid) = some u2 →
      (∀ x ∈ db.tokens, x.token ≠ ts) → 0 < ttl →
      validate (issue (revoke_all_for_user db uid) u2 ts now ttl ip ua
        newId).2 ts now = TokenResult.ok u2) ∧
    (∀ db uid ts now t,
      db.tokens.find? (fun x => x.token == ts) = some t → t.user_id ≠ uid →
      validate (revoke_all_for_user db uid) ts now =
        validate db ts now) := by
  refine ⟨fun db uid u hfu => ?_, fun db uid ts now t u hft htu hr he hfu
    hver => ?_, fun db uid ts now ttl ip ua newId u2 hfu2 hfresh httl => ?_,
    fun db uid ts now t hft hne => ?_⟩
  · show (db.users.map (fun v => if v.user_id == uid then
        { v with token_version := v.token_version + 1 } else v)).find?
        (fun v => v.user_id == uid) =
        some { u with token_version := u.token_version + 1 }
    exact find?_bump uid db.users u hfu
  · subst htu
    have hb : (revoke_all_for_user db t.user_id).users.find?
        (fun v => v.user_id == t.user_id) =
        some { u with token_version := u.token_version + 1 } :=
      find?_bump t.user_id db.users u hfu
    exact validate_stale (revoke_all_for_user db t.user_id) ts now t
      { u with token_version := u.token_version + 1 } hft hr he hb
      (show t.recorded_version ≠ u.token_version + 1 by rw [hver]; omega)
  · have h0 := List.find?_some hfu2
    have hid : u2.user_id = uid := by simpa using h0
    have hnone : db.tokens.find? (fun x => x.token == ts) = none :=
      List.find?_eq_none.mpr (fun x hx => by simp [hfresh x hx])
    refine validate_issue_fresh (revoke_all_for_user db uid) u2 ts now ttl
      ip ua newId hnone ?_ httl
    rw [hid]
    exact hfu2
  · by_cases hr : t.revoked = true
    · have h1 : validate (revoke_all_for_user db uid) ts now =
          TokenResult.revokedTok := by
        simp [validate, revoke_all_for_user, hft, hr]
      have h2 : validate db ts now = TokenResult.revokedTok := by
        simp [validate, hft, hr]
      rw [h1, h2]
    · simp only [Bool.not_eq_true] at hr
      by_cases he : t.expires_at ≤ now
      · have h1 : validate (revoke_all_for_user db uid) ts now =
            TokenResult.expired := by
          simp [validate, revoke_all_for_user, hft, hr, he]
        have h2 : validate db ts now = TokenResult.expired := by
          simp [validate, hft, hr, he]
        rw [h1, h2]
      · have hpres : ∀ x : User,
            ((if x.user_id == uid then
              { x with token_version := x.token_version + 1 }
            else x).user_id == t.user_id) = (x.user_id == t.user_id) := by
          intro x
          by_cases hx : (x.user_id == uid) = true
          · simp [hx]
          · have hx2 : (x.user_id == uid) = false := by simpa using hx
            simp [hx2]
        have hrw := find?_map_pres (fun v => v.user_id == t.user_id)
          (fun v => if v.user_id == uid then
            { v with token_version := v.token_version + 1 } else v)
          hpres db.users
        have h1 := validate_live_eq (revoke_all_for_user db uid) ts now t
          hft hr he
        have h2 := validate_live_eq db ts now t hft hr he
        rw [h1, h2]
        show (match (db.users.map (fun v => if v.user_id == uid then
            { v with token_version := v.token_version + 1 } else v)).find?
            (fun v => v.user_id == t.user_id) with
          | none => TokenResult.notFound
          | some w => if t.recorded_version == w.token_version
              then TokenResult.ok w else TokenResult.staleVersion) =
          (match db.users.find? (fun v => v.user_id == t.user_id) with
          | none => TokenResult.notFound
          | some w => if t.recorded_version == w.token_version
              then TokenResult.ok w else TokenResult.staleVersion)
        rw [hrw]
        cases hfu3 : db.users.find? (fun v => v.user_id == t.user_id) with
        | none => rfl
        | some w =>
          have hw := List.find?_some hfu3
          have hwid : w.user_id = t.user_id := by simpa using hw
          have hwuid : ¬(w.user_id = uid) := by
            rw [hwid]
            exact hne
          simp [hwuid]

/-- C5 witness: after revoke_all_for_user on alice, her live token recorded
at the old version fails validation with StaleVersion. -/
theorem revoke_all_semantics_witness :
    validate (revoke_all_for_user dbTok 1) "T1" 5 =
      TokenResult.staleVersion :=
  revoke_all_semantics.2.1 dbTok 1 "T1" 5 tokAlice uAlice rfl rfl rfl
    (by decide) rfl rfl

end ExpenseTracker
